import Mathlib

/-!
Shallow embedding of the winwheel-ts wheel widget (src/src/lib/Winwheel.ts) and
proofs about its segment geometry, hit testing, animation computation and text
draw-command emission.

Numbers: the source computes with JS numbers. We embed them as exact rationals
(ℚ). One JS peculiarity to keep in mind: in JS, x / 0 is Infinity for x > 0,
while in ℚ the convention is x / 0 = 0. The only division in the modelled code
whose divisor can be zero is degreesEach = arcLeft / (numSegments - numSet) in
updateSegmentSizes (divisor zero exactly when every segment has an explicit
size while arcLeft > 0); in that situation the quotient is only ever consumed
by segments whose size is JS-falsy, and none of the theorems below depend on
an input that reaches the divergent case, as noted where relevant.
-/

namespace Winwheel

/-- Possible values of the textOrientation option ("horizontal" | "vertical" |
"curved" in the TypeScript union type). -/
inductive TextOrient
  | horizontal
  | vertical
  | curved
  deriving DecidableEq, Repr

/-- Possible values of the textAlignment option ("center" | "inner" | "outer"). -/
inductive TextAlign
  | center
  | inner
  | outer
  deriving DecidableEq, Repr

/-- Possible values of the textDirection option ("normal" | "reversed"). -/
inductive TextDir
  | normal
  | reversed
  deriving DecidableEq, Repr

/-- Per-segment options, mirroring interface SegmentOptions (interfaces file).
Nullable style fields are Option-typed, none standing for the null sentinel
that means "fall back to the global default". Note that SegmentOptions has no
startAngle or endAngle member; the computed angles live on the Segment object
itself. imgData and image are reduced to an Option String image reference;
image loading is external and irrelevant to the claims below. -/
structure SegmentOptions where
  size : Option ℚ
  text : String
  fillStyle : Option String
  strokeStyle : Option String
  lineWidth : Option ℚ
  textFontFamily : Option String
  textFontSize : Option ℚ
  textFontWeight : Option String
  textOrientation : Option TextOrient
  textAlignment : Option TextAlign
  textDirection : Option TextDir
  textMargin : Option ℚ
  textFillStyle : Option String
  textStrokeStyle : Option String
  textLineWidth : Option ℚ
  image : Option String
  imageDirection : Option String
  deriving DecidableEq, Repr

/-- Default values of the Segment class defaultOptions field: size null, empty
text, every style null. -/
def defaultSegmentOptions : SegmentOptions where
  size := none
  text := ""
  fillStyle := none
  strokeStyle := none
  lineWidth := none
  textFontFamily := none
  textFontSize := none
  textFontWeight := none
  textOrientation := none
  textAlignment := none
  textDirection := none
  textMargin := none
  textFillStyle := none
  textStrokeStyle := none
  textLineWidth := none
  image := none
  imageDirection := none

/-- A Segment object: merged options plus the computed startAngle / endAngle
fields (both initialised to 0 by the class). -/
structure Segment where
  options : SegmentOptions
  startAngle : ℚ
  endAngle : ℚ
  deriving DecidableEq, Repr

/-- Models new Segment(options): the constructor spreads the given options over
the defaults; passing no options yields the defaults. Since our SegmentOptions
records are total, the merge is the identity on a supplied record. -/
def newSegment (opts : Option SegmentOptions) : Segment where
  options := opts.getD defaultSegmentOptions
  startAngle := 0
  endAngle := 0

/-- The wheel state: the merged WinwheelOptions fields the modelled functions
read, together with the segments array. The JS segments array leaves slot 0
unused and stores segment number x (1-based) at index x; we store exactly the
segments 1..numSegments in a list, so segment number x sits at list index
x - 1. Canvas, context and image fields are external collaborators and are
not part of the state. -/
structure Wheel where
  numSegments : ℕ
  centerX : ℚ
  centerY : ℚ
  outerRadius : ℚ
  innerRadius : ℚ
  rotationAngle : ℚ
  pointerAngle : ℚ
  textFontFamily : String
  textFontSize : ℚ
  textFontWeight : String
  textOrientation : TextOrient
  textAlignment : TextAlign
  textDirection : TextDir
  textMargin : ℚ
  textFillStyle : Option String
  textStrokeStyle : Option String
  textLineWidth : ℚ
  fillStyle : Option String
  strokeStyle : Option String
  lineWidth : ℚ
  segments : List Segment
  deriving DecidableEq, Repr

/-- JS truthiness of an optional number: null and 0 are falsy. Used where the
source tests if (options.size). -/
def qTruthy : Option ℚ → Bool
  | none => false
  | some v => decide (v ≠ 0)

/-- Sum of the explicit sizes: the first loop of updateSegmentSizes adds
options.size to arcUsed for every segment whose size !== null. -/
def arcUsed (segs : List Segment) : ℚ :=
  (segs.filterMap (fun s => s.options.size)).sum

/-- Count of segments whose size !== null (numSet in updateSegmentSizes). -/
def numSet (segs : List Segment) : ℕ :=
  (segs.filterMap (fun s => s.options.size)).length

/-- The degreesEach value of updateSegmentSizes: the arc left out of 360 is
shared between the numSegments - numSet sizeless segments, but only when
arcLeft > 0; otherwise degreesEach keeps its initial value 0. (When every
segment has a size and arcLeft > 0 the JS division is by zero, yielding
Infinity; in ℚ it yields 0. That value is only read by segments with a
JS-falsy size, and no theorem below depends on an input reaching it.) -/
def degreesEach (n : ℕ) (segs : List Segment) : ℚ :=
  let arcLeft : ℚ := 360 - arcUsed segs
  if 0 < arcLeft then arcLeft / ((n : ℚ) - (numSet segs : ℚ)) else 0

/-- How much the second loop of updateSegmentSizes advances currentDegree for
one segment: options.size when that is truthy (if (options.size)), degreesEach
otherwise. -/
def segInc (d : ℚ) (s : Segment) : ℚ :=
  if qTruthy s.options.size then s.options.size.getD 0 else d

/-- The second loop of updateSegmentSizes: walk the segments accumulating
currentDegree; each segment gets startAngle = currentDegree, currentDegree
grows by segInc, and endAngle is the new currentDegree. -/
def assignAngles (d : ℚ) : ℚ → List Segment → List Segment
  | _, [] => []
  | cur, s :: rest =>
    { s with startAngle := cur, endAngle := cur + segInc d s } ::
      assignAngles d (cur + segInc d s) rest

/-- Total angle the second loop of updateSegmentSizes advances by over a list
of segments. -/
def incSum (d : ℚ) (l : List Segment) : ℚ := (l.map (segInc d)).sum

/-- Number of segments whose size is null (numSegments - numSet for a wheel
whose list matches its numSegments). -/
def numNone (l : List Segment) : ℕ :=
  (l.filter (fun s => s.options.size.isNone)).length

/-- Models updateSegmentSizes: both loops run over segment numbers
1..numSegments, i.e. over the first numSegments entries of our list. -/
def updateSegmentSizes (w : Wheel) : Wheel :=
  let active := w.segments.take w.numSegments
  let d := degreesEach w.numSegments active
  { w with segments := assignAngles d 0 active ++ w.segments.drop w.numSegments }

/-- Models getRotationPosition: reduces rotationAngle to 0-360 by removing
whole multiples of 360, using Math.floor for positive angles and Math.ceil
plus the 360-complement for negative ones. -/
def getRotationPosition (rotationAngle : ℚ) : ℚ :=
  let rawAngle := rotationAngle
  if 0 ≤ rawAngle then
    if 360 < rawAngle then rawAngle - 360 * (⌊rawAngle / 360⌋ : ℚ) else rawAngle
  else
    let r := if rawAngle < -360 then rawAngle - 360 * (⌈rawAngle / 360⌉ : ℚ) else rawAngle
    360 + r

/-- Models the JS property read segments[x].options["startAngle"] performed by
getIndicatedSegmentNumber. SegmentOptions (see the interfaces file) has no
startAngle member, and updateSegmentSizes stores the computed angles on the
Segment object itself, never on its options; the read therefore yields JS
undefined, modelled as none. -/
def optionsStartAngle (_ : SegmentOptions) : Option ℚ := none

/-- Models the JS property read segments[x].options["endAngle"]; undefined for
the same reason as optionsStartAngle. -/
def optionsEndAngle (_ : SegmentOptions) : Option ℚ := none

/-- JS >= where the right operand may be undefined: undefined converts to NaN
and every comparison involving NaN is false. -/
def jsGE (a : ℤ) : Option ℚ → Bool
  | none => false
  | some b => decide (b ≤ (a : ℚ))

/-- JS <= where the right operand may be undefined; false on undefined. -/
def jsLE (a : ℤ) : Option ℚ → Bool
  | none => false
  | some b => decide ((a : ℚ) ≤ b)

/-- The scan loop of getIndicatedSegmentNumber: for x = 1; x < segments.length,
return x for the first segment whose options["startAngle"] / options["endAngle"]
bracket relativeAngle; indicatedPrize stays 0 when no segment matches. -/
def indicatedLoop (rel : ℤ) : ℕ → List Segment → ℕ
  | _, [] => 0
  | x, s :: rest =>
    if jsGE rel (optionsStartAngle s.options) && jsLE rel (optionsEndAngle s.options)
    then x else indicatedLoop rel (x + 1) rest

/-- Models getIndicatedSegmentNumber: normalize the rotation, take the floor of
pointerAngle minus it, wrap a negative result into 0-360, then scan the
segments (via the undefined options angles, see optionsStartAngle). -/
def getIndicatedSegmentNumber (w : Wheel) : ℕ :=
  let rawAngle := getRotationPosition w.rotationAngle
  let relativeAngle : ℤ := ⌊w.pointerAngle - rawAngle⌋
  let relativeAngle := if relativeAngle < 0 then 360 - |relativeAngle| else relativeAngle
  indicatedLoop relativeAngle 1 w.segments

/-- Reads the 1-based array slot x of the segments array. Slot 0 is never
populated by the source, and a slot past the populated range is JS undefined;
both give none. -/
def getSlot (segs : List Segment) (x : ℕ) : Option Segment :=
  if 1 ≤ x then segs.get? (x - 1) else none

/-- Models the JS statement segments[x].options = o. If slot x holds no Segment
object the base of the property assignment is undefined and the statement
throws a TypeError, modelled as none. -/
def setSlotOptions (segs : List Segment) (x : ℕ) (o : SegmentOptions) : Option (List Segment) :=
  match getSlot segs x with
  | none => none
  | some s => some (segs.set (x - 1) { s with options := o })

/-- Models the addSegment shift loop: for (x = numSegments; x > position; x--)
segments[x].options = segments[x-1].options. Reading a missing slot or writing
the options of a missing slot throws, giving none. -/
def shiftUpLoop (p : ℕ) : ℕ → List Segment → Option (List Segment)
  | 0, segs => some segs
  | x + 1, segs =>
    if x + 1 ≤ p then some segs
    else
      match (getSlot segs x).map (fun s => s.options) with
      | none => none
      | some o =>
        match setSlotOptions segs (x + 1) o with
        | none => none
        | some segs2 => shiftUpLoop p x segs2

/-- Models the plain array assignment segments[x] = seg used by addSegment. An
in-range slot is overwritten; slot numSegments (one past the populated range)
extends the array by one. Assigning slot 0 or a slot further out would create
an unused or sparse entry our list representation cannot hold; the source
never reaches those cases, and we return none for them. -/
def setSlotSegment (segs : List Segment) (x : ℕ) (s : Segment) : Option (List Segment) :=
  if x = 0 then none
  else if x - 1 < segs.length then some (segs.set (x - 1) s)
  else if x - 1 = segs.length then some (segs ++ [s])
  else none

/-- Models addSegment(options, position): build the new Segment, increment
numSegments, then either shift the tail up by one and place the new segment at
the given position, or append it at the end, and recompute the segment sizes.
none models a thrown TypeError. -/
def addSegment (w : Wheel) (opts : SegmentOptions) (position : Option ℕ) : Option Wheel :=
  let seg := newSegment (some opts)
  let n := w.numSegments + 1
  match position with
  | some p =>
    match shiftUpLoop p n w.segments with
    | none => none
    | some segs =>
      match setSlotSegment segs p seg with
      | none => none
      | some segs2 => some (updateSegmentSizes { w with numSegments := n, segments := segs2 })
  | none => some (updateSegmentSizes { w with numSegments := n, segments := w.segments ++ [seg] })

/-- Models the deleteSegment shift loop: for (x = position; x < numSegments;
x++) segments[x].options = segments[x+1].options. -/
def shiftDownLoop (n : ℕ) (x : ℕ) (segs : List Segment) : Option (List Segment) :=
  if x < n then
    match (getSlot segs (x + 1)).map (fun s => s.options) with
    | none => none
    | some o =>
      match setSlotOptions segs x o with
      | none => none
      | some segs2 => shiftDownLoop n (x + 1) segs2
  else some segs
termination_by n - x

/-- Models deleteSegment(position): when more than one segment remains, shift
the options of the segments after the given position down by one, clear the
last occupied slot (segments[numSegments] = undefined), decrement numSegments
and recompute the sizes; with a single segment the function does nothing at
all. -/
def deleteSegment (w : Wheel) (position : Option ℕ) : Option Wheel :=
  if 1 < w.numSegments then
    let segs? : Option (List Segment) :=
      match position with
      | some p => shiftDownLoop w.numSegments p w.segments
      | none => some w.segments
    match segs? with
    | none => none
    | some segs =>
      some (updateSegmentSizes
        { w with numSegments := w.numSegments - 1, segments := segs.take (w.numSegments - 1) })
  else some w

/-- Animation type option ("spinOngoing" | "spinToStop" | "spinAndBack" |
"custom"). -/
inductive AnimType
  | spinOngoing
  | spinToStop
  | spinAndBack
  | custom
  deriving DecidableEq, Repr

/-- Animation direction option ("clockwise" | "anti-clockwise"). -/
inductive AnimDirection
  | clockwise
  | anticlockwise
  deriving DecidableEq, Repr

/-- The options record of the Animation class; nullable fields are Option.
The repeat option is named repeatCount here because repeat is reserved in
Lean. -/
structure AnimationOptions where
  type : AnimType
  direction : AnimDirection
  propertyName : Option String
  propertyValue : Option ℚ
  duration : ℚ
  yoyo : Option Bool
  repeatCount : Option ℤ
  easing : Option String
  stopAngle : Option ℚ
  spins : Option ℚ
  deriving DecidableEq, Repr

/-- An Animation object: its options plus the private _stopAngle field, which
starts out undefined. -/
structure AnimationState where
  options : AnimationOptions
  stopAngleInternal : Option ℚ
  deriving DecidableEq, Repr

/-- Models computeAnimation. pointerAngle is the wheel option the spinToStop
branch reads; rand stands for the Math.random() sample in 0 <= rand < 1 used
when no stop angle is specified. Each branch fills in the defaults for the
unspecified options and computes propertyValue; the custom branch leaves
everything to the caller. -/
def computeAnimation (pointerAngle : ℚ) (rand : ℚ) (st : AnimationState) : AnimationState :=
  let o := st.options
  match o.type with
  | .spinOngoing =>
    let spins := o.spins.getD 5
    let pv := spins * 360
    let pv := match o.direction with
      | .anticlockwise => 0 - pv
      | .clockwise => pv
    { st with
      options := { o with
        propertyName := some "rotationAngle"
        spins := some spins
        repeatCount := some (o.repeatCount.getD (-1))
        easing := some (o.easing.getD "Linear.easeNone")
        yoyo := some (o.yoyo.getD false)
        propertyValue := some pv } }
  | .spinToStop =>
    let spins := o.spins.getD 5
    let stopInternal : ℚ := match o.stopAngle with
      | none => ((⌊rand * 359⌋ : ℤ) : ℚ)
      | some s => 360 - s + pointerAngle
    let pv := spins * 360
    let pv := match o.direction with
      | .anticlockwise => (0 - pv) - (360 - stopInternal)
      | .clockwise => pv + stopInternal
    { options := { o with
        propertyName := some "rotationAngle"
        spins := some spins
        repeatCount := some (o.repeatCount.getD 0)
        easing := some (o.easing.getD "Power4.easeOut")
        yoyo := some (o.yoyo.getD false)
        propertyValue := some pv }
      stopAngleInternal := some stopInternal }
  | .spinAndBack =>
    let spins := o.spins.getD 5
    let stopInternal : ℚ := match o.stopAngle with
      | none => 0
      | some s => 360 - s
    let pv := spins * 360
    let pv := match o.direction with
      | .anticlockwise => (0 - pv) - (360 - stopInternal)
      | .clockwise => pv + stopInternal
    { options := { o with
        propertyName := some "rotationAngle"
        spins := some spins
        repeatCount := some (o.repeatCount.getD 1)
        easing := some (o.easing.getD "Power2.easeInOut")
        yoyo := some (o.yoyo.getD true)
        propertyValue := some pv }
      stopAngleInternal := some stopInternal }
  | .custom => st

/-- The segment-population loop of the Winwheel constructor: for i =
1..numSegments the source builds a Segment from options.segments[i-1] when
that entry exists, and then unconditionally assigns this.segments[i] = new
Segment(), overwriting whatever the first assignment stored. -/
def populateSegments (segOpts : List SegmentOptions) (numSegments : ℕ) : List Segment :=
  (List.range numSegments).map (fun i =>
    let _fromOptions :=
      match segOpts.get? i with
      | some o => newSegment (some o)
      | none => newSegment none
    -- the unconditional second assignment discards _fromOptions
    newSegment none)

/-- JS truthiness of an optional string: null and the empty string are falsy.
Used for fillStyle / strokeStyle checks before fillText / strokeText. -/
def strTruthy : Option String → Bool
  | none => false
  | some s => decide (s ≠ "")

/-- Models degToRad: the source multiplies by the literal constant
0.0174532925199432957. -/
def degToRad (d : ℚ) : ℚ := d * (174532925199432957 / 10000000000000000000)

/-- Whether a draw command fills or strokes the glyphs. -/
inductive PaintKind
  | fill
  | stroke
  deriving DecidableEq, Repr

/-- One fillText / strokeText call recorded by the drawSegmentText model:
which paint operation, the drawn string, the angle (already through degToRad)
the canvas was rotated by around the wheel center before the call, and the x,
y arguments of the call. -/
structure TextCmd where
  kind : PaintKind
  content : String
  rot : ℚ
  x : ℚ
  y : ℚ
  deriving DecidableEq, Repr

/-- The per-segment text values drawSegmentText resolves before drawing: the
segment option when it is not null, the global wheel option otherwise. -/
structure ResolvedTextStyle where
  fontFamily : String
  fontSize : ℚ
  fontWeight : String
  orient : TextOrient
  align : TextAlign
  dir : TextDir
  margin : ℚ
  fillStyle : Option String
  strokeStyle : Option String
  lineWidth : ℚ
  deriving DecidableEq, Repr

/-- Resolves the text style for one segment as drawSegmentText does. -/
def resolveTextStyle (w : Wheel) (o : SegmentOptions) : ResolvedTextStyle where
  fontFamily := o.textFontFamily.getD w.textFontFamily
  fontSize := o.textFontSize.getD w.textFontSize
  fontWeight := o.textFontWeight.getD w.textFontWeight
  orient := o.textOrientation.getD w.textOrientation
  align := o.textAlignment.getD w.textAlignment
  dir := o.textDirection.getD w.textDirection
  margin := o.textMargin.getD w.textMargin
  fillStyle := match o.textFillStyle with
    | some v => some v
    | none => w.textFillStyle
  strokeStyle := match o.textStrokeStyle with
    | some v => some v
    | none => w.textStrokeStyle
  lineWidth := o.textLineWidth.getD w.textLineWidth

/-- Models String.prototype.split on the newline character, structurally on the
character list so that concrete instances reduce. -/
def splitLines : List Char → List (List Char)
  | [] => [[]]
  | c :: rest =>
    match splitLines rest with
    | [] => [[]]
    | l :: ls => if c = '\n' then [] :: l :: ls else (c :: l) :: ls

/-- Models line.charAt(c): the one-character string at index c, or the empty
string when c is out of range (the reversed curved loop reads charAt at index
line.length). -/
def charAt (line : List Char) (c : ℕ) : String :=
  String.mk ((line.drop c).take 1)

/-- Emits the pair of draw commands used by the horizontal and vertical
branches: filled text first when a fill style is set, then stroked text when a
stroke style is set. -/
def emitFillStroke (fs ss : Option String) (content : String) (rot x y : ℚ) : List TextCmd :=
  (if strTruthy fs then [⟨PaintKind.fill, content, rot, x, y⟩] else []) ++
    (if strTruthy ss then [⟨PaintKind.stroke, content, rot, x, y⟩] else [])

/-- Emits the pair of draw commands used by the curved branches: stroked text
first, then filled text. -/
def emitStrokeFill (fs ss : Option String) (content : String) (rot x y : ℚ) : List TextCmd :=
  (if strTruthy ss then [⟨PaintKind.stroke, content, rot, x, y⟩] else []) ++
    (if strTruthy fs then [⟨PaintKind.fill, content, rot, x, y⟩] else [])

/-- Draw commands of one text line of one segment, following the direction,
orientation and alignment branches of drawSegmentText. lineCount is
lines.length of the whole segment text (the curved branches read it), and
lineOffset the vertical offset of this line. -/
def lineCmds (w : Wheel) (st : ResolvedTextStyle) (seg : Segment) (lineCount : ℕ)
    (lineOffset : ℚ) (line : List Char) : List TextCmd :=
  let cx := w.centerX
  let cy := w.centerY
  let len := line.length
  let yInc := st.fontSize - st.fontSize / 9
  match st.dir, st.orient with
  | .reversed, .horizontal =>
    let rot := degToRad (seg.endAngle - (seg.endAngle - seg.startAngle) / 2
      + w.rotationAngle - 90 - 180)
    let x := match st.align with
      | .inner => cx - w.innerRadius - st.margin
      | .outer => cx - w.outerRadius + st.margin
      | .center => cx - w.innerRadius - (w.outerRadius - w.innerRadius) / 2 - st.margin
    emitFillStroke st.fillStyle st.strokeStyle (String.mk line) rot x (cy + lineOffset)
  | .reversed, .vertical =>
    let rot := degToRad (seg.endAngle - (seg.endAngle - seg.startAngle) / 2 - 180
      + w.rotationAngle)
    match st.align with
    | .outer =>
      let y0 := cy + w.outerRadius - st.margin
      ((List.range len).map (fun j =>
        emitFillStroke st.fillStyle st.strokeStyle (charAt line (len - 1 - j)) rot
          (cx + lineOffset) (y0 - j * yInc))).flatten
    | .inner =>
      let y0 := cy + w.innerRadius + st.margin
      ((List.range len).map (fun c =>
        emitFillStroke st.fillStyle st.strokeStyle (charAt line c) rot
          (cx + lineOffset) (y0 + c * yInc))).flatten
    | .center =>
      let centerAdjustment := if 1 < len then yInc * ((len : ℚ) - 1) / 2 else 0
      let y0 := cy + w.innerRadius + (w.outerRadius - w.innerRadius) / 2
        + centerAdjustment + st.margin
      ((List.range len).map (fun j =>
        emitFillStroke st.fillStyle st.strokeStyle (charAt line (len - 1 - j)) rot
          (cx + lineOffset) (y0 - j * yInc))).flatten
  | .reversed, .curved =>
    let radius := match st.align with
      | .inner => w.innerRadius + st.margin
      | .outer => w.outerRadius - st.margin - st.fontSize * ((lineCount - 1 : ℕ) : ℚ)
      | .center => w.innerRadius + st.margin + (w.outerRadius - w.innerRadius) / 2
    let anglePerChar := if 1 < len then (4 * (st.fontSize / 10)) * (100 / radius) else 0
    let drawAngle0 :=
      if 1 < len then
        seg.startAngle + ((seg.endAngle - seg.startAngle) / 2
          - (anglePerChar * (len : ℚ)) / 2)
      else seg.startAngle + (seg.endAngle - seg.startAngle) / 2
    let drawAngle0 := drawAngle0 + w.rotationAngle - 180
    -- the loop runs c = len, len-1, ..., 0; charAt len is the empty string
    ((List.range (len + 1)).map (fun j =>
      emitStrokeFill st.fillStyle st.strokeStyle (charAt line (len - j))
        (degToRad (drawAngle0 + (j : ℚ) * anglePerChar)) cx
        (cy + radius + lineOffset))).flatten
  | .normal, .horizontal =>
    let rot := degToRad (seg.endAngle - (seg.endAngle - seg.startAngle) / 2
      + w.rotationAngle - 90)
    let x := match st.align with
      | .inner => cx + w.innerRadius + st.margin
      | .outer => cx + w.outerRadius - st.margin
      | .center => cx + w.innerRadius + (w.outerRadius - w.innerRadius) / 2 + st.margin
    emitFillStroke st.fillStyle st.strokeStyle (String.mk line) rot x (cy + lineOffset)
  | .normal, .vertical =>
    let rot := degToRad (seg.endAngle - (seg.endAngle - seg.startAngle) / 2
      + w.rotationAngle)
    match st.align with
    | .outer =>
      let y0 := cy - w.outerRadius + st.margin
      ((List.range len).map (fun c =>
        emitFillStroke st.fillStyle st.strokeStyle (charAt line c) rot
          (cx + lineOffset) (y0 + c * yInc))).flatten
    | .inner =>
      let y0 := cy - w.innerRadius - st.margin
      ((List.range len).map (fun j =>
        emitFillStroke st.fillStyle st.strokeStyle (charAt line (len - 1 - j)) rot
          (cx + lineOffset) (y0 - j * yInc))).flatten
    | .center =>
      let centerAdjustment := if 1 < len then yInc * ((len : ℚ) - 1) / 2 else 0
      let y0 := cy - w.innerRadius - (w.outerRadius - w.innerRadius) / 2
        - centerAdjustment - st.margin
      ((List.range len).map (fun c =>
        emitFillStroke st.fillStyle st.strokeStyle (charAt line c) rot
          (cx + lineOffset) (y0 + c * yInc))).flatten
  | .normal, .curved =>
    let radius := match st.align with
      | .inner => w.innerRadius + st.margin + st.fontSize * ((lineCount - 1 : ℕ) : ℚ)
      | .outer => w.outerRadius - st.margin
      | .center => w.innerRadius + st.margin + (w.outerRadius - w.innerRadius) / 2
    let anglePerChar := if 1 < len then (4 * (st.fontSize / 10)) * (100 / radius) else 0
    let drawAngle0 :=
      if 1 < len then
        seg.startAngle + ((seg.endAngle - seg.startAngle) / 2
          - (anglePerChar * (len : ℚ)) / 2)
      else seg.startAngle + (seg.endAngle - seg.startAngle) / 2
    let drawAngle0 := drawAngle0 + w.rotationAngle
    ((List.range len).map (fun c =>
      emitStrokeFill st.fillStyle st.strokeStyle (charAt line c)
        (degToRad (drawAngle0 + (c : ℚ) * anglePerChar)) cx
        (cy - radius + lineOffset))).flatten

/-- Draw commands of one segment: nothing when the segment text is falsy,
otherwise the per-line commands with the multi-line vertical offset, which
starts at -fontSize*(lines.length/2) + fontSize/2, is forced to 0 for curved
inner or outer aligned text, and grows by fontSize per line. -/
def segmentTextCmds (w : Wheel) (seg : Segment) : List TextCmd :=
  if seg.options.text = "" then []
  else
    let st := resolveTextStyle w seg.options
    let lines := splitLines seg.options.text.data
    let base : ℚ := 0 - st.fontSize * ((lines.length : ℚ) / 2) + st.fontSize / 2
    let base := if st.orient = TextOrient.curved
        ∧ (st.align = TextAlign.inner ∨ st.align = TextAlign.outer) then 0 else base
    ((List.range lines.length).map (fun (i : ℕ) =>
      lineCmds w st seg lines.length (base + (i : ℚ) * st.fontSize)
        (lines.getD i []))).flatten

/-- Models drawSegmentText as the sequence of fillText / strokeText commands it
issues for segments 1..numSegments in order. -/
def drawSegmentText (w : Wheel) : List TextCmd :=
  ((w.segments.take w.numSegments).map (fun seg => segmentTextCmds w seg)).flatten

/-- The per-character or per-line paint order of drawSegmentText: the curved
branches stroke before filling, every other branch fills before stroking. -/
def kindPat (o : TextOrient) : List PaintKind :=
  match o with
  | .curved => [PaintKind.stroke, PaintKind.fill]
  | _ => [PaintKind.fill, PaintKind.stroke]

/-- The scan loop of getSegmentNumberAt: return the number of the first
segment whose startAngle / endAngle bracket locationAngle and for which the
radius check holds; a failing radius check does not stop the scan. -/
def segmentSearch (radiusOk : Bool) : ℕ → List Segment → ℚ → Option ℕ
  | _, [], _ => none
  | x, s :: rest, angle =>
    if s.startAngle ≤ angle ∧ angle ≤ s.endAngle then
      if radiusOk then some x else segmentSearch radiusOk (x + 1) rest angle
    else segmentSearch radiusOk (x + 1) rest angle

/-- Models getSegmentNumberAt over exact real window coordinates. The
windowToCanvas conversion is taken with the canvas at the window origin and
unscaled, reducing it to Math.floor of each coordinate. The quadrant tests
and triangle legs are then exact rationals; Math.atan, Math.sqrt and the
division pi appears in force the recovered angle and the radius check into ℝ,
hence noncomputable. Each quadrant branch rounds its angle to a whole number
of degrees, exactly as the four Math.round calls of the source do. -/
noncomputable def getSegmentNumberAt (w : Wheel) (px py : ℝ) : Option ℕ :=
  let locx : ℤ := ⌊px⌋
  let locy : ℤ := ⌊py⌋
  let right : Bool := decide (w.centerX < (locx : ℚ))
  let bottom : Bool := decide (w.centerY < (locy : ℚ))
  let adjacentSideLength : ℚ :=
    if right then (locx : ℚ) - w.centerX else w.centerX - (locx : ℚ)
  let oppositeSideLength : ℚ :=
    if bottom then (locy : ℚ) - w.centerY else w.centerY - (locy : ℚ)
  let tanVal : ℚ := oppositeSideLength / adjacentSideLength
  let result : ℝ := Real.arctan (tanVal : ℝ) * 180 / Real.pi
  let hypotenuseSideLength : ℝ :=
    Real.sqrt ((oppositeSideLength : ℝ) * (oppositeSideLength : ℝ)
      + (adjacentSideLength : ℝ) * (adjacentSideLength : ℝ))
  let locationAngle : ℤ :=
    if !bottom && right then round ((90 : ℝ) - result)
    else if bottom && right then round (result + 90)
    else if bottom && !right then round ((90 : ℝ) - result + 180)
    else round (result + 270)
  let angle : ℚ :=
    if w.rotationAngle ≠ 0 then
      let rotatedPosition := getRotationPosition w.rotationAngle
      let a := (locationAngle : ℚ) - rotatedPosition
      if a < 0 then 360 - |a| else a
    else (locationAngle : ℚ)
  let radiusOk : Bool :=
    @decide (((w.innerRadius : ℚ) : ℝ) ≤ hypotenuseSideLength
      ∧ hypotenuseSideLength ≤ ((w.outerRadius : ℚ) : ℝ)) (Classical.propDecidable _)
  segmentSearch radiusOk 1 w.segments angle

/-- A segment whose only non-default option is its size. -/
def segmentOfSize (s : Option ℚ) : Segment :=
  newSegment (some { defaultSegmentOptions with size := s })

/-- A wheel carrying the source defaultOptions (canvas-derived values taken
for a 500 x 500 canvas: center 250, 250 and outerRadius 249; textMargin is
textFontSize / 1.7 as the constructor sets when it is null), with one default
segment. -/
def defaultWheel : Wheel where
  numSegments := 1
  centerX := 250
  centerY := 250
  outerRadius := 249
  innerRadius := 0
  rotationAngle := 0
  pointerAngle := 0
  textFontFamily := "Arial"
  textFontSize := 20
  textFontWeight := "bold"
  textOrientation := TextOrient.horizontal
  textAlignment := TextAlign.center
  textDirection := TextDir.normal
  textMargin := 200 / 17
  textFillStyle := some "black"
  textStrokeStyle := none
  textLineWidth := 1
  fillStyle := some "silver"
  strokeStyle := some "black"
  lineWidth := 1
  segments := [newSegment none]

/-- A four-segment wheel with no explicit sizes, before the constructor
computes its boundaries. -/
def wheelFourBase : Wheel :=
  { defaultWheel with
    numSegments := 4
    segments := [segmentOfSize none, segmentOfSize none, segmentOfSize none, segmentOfSize none] }

/-- wheelFourBase as constructed, boundaries computed: the running example of
the specification, four equal 90-degree segments. -/
def wheelFourEqual : Wheel := updateSegmentSizes wheelFourBase

/-- A one-segment wheel whose only segment has the explicit size 100; its
explicit sizes sum to 100 <= 360. -/
def wheelSingleBase : Wheel :=
  { defaultWheel with segments := [segmentOfSize (some 100)] }

/-- A three-segment wheel whose explicit sizes 200 + 200 exceed 360 and whose
third segment has no explicit size. -/
def wheelOversizedBase : Wheel :=
  { defaultWheel with
    numSegments := 3
    segments := [segmentOfSize (some 200), segmentOfSize (some 200), segmentOfSize none] }

/-- A two-segment wheel with default segments, boundaries computed. -/
def wheelTwo : Wheel :=
  updateSegmentSizes { defaultWheel with
    numSegments := 2
    segments := [segmentOfSize none, segmentOfSize none] }

/-- A one-segment wheel with the segment text "A", global horizontal outer
aligned normal direction text, and both a text fill style and a text stroke
style resolved, before boundary computation. -/
def wheelOuterTextBase : Wheel :=
  { defaultWheel with
    textAlignment := TextAlign.outer
    textStrokeStyle := some "red"
    segments := [newSegment (some { defaultSegmentOptions with text := "A" })] }

/-- wheelOuterTextBase as constructed. -/
def wheelOuterText : Wheel := updateSegmentSizes wheelOuterTextBase

/-- The single segment of wheelOuterText after boundary computation: the full
wheel, 0 to 360 degrees, with text "A". -/
def segOuterA : Segment where
  options := { defaultSegmentOptions with text := "A" }
  startAngle := 0
  endAngle := 360

/-- A three-segment wheel with sizes 44.2, 0.4 and 315.4 degrees: segment 2
covers [44.2, 44.6], a range containing no whole number of degrees. Center
500, 500, outer radius 100, rotation 0. -/
def wheelThin : Wheel :=
  updateSegmentSizes { defaultWheel with
    numSegments := 3
    centerX := 500
    centerY := 500
    outerRadius := 100
    segments := [segmentOfSize (some (221 / 5)), segmentOfSize (some (2 / 5)),
      segmentOfSize (some (1577 / 5))] }

/-- The x window coordinate of the point at the exact mid-angle 44.4 degrees
of segment 2 of wheelThin and at the mid-radius 50 (clockwise angles measured
from 12 on the clock face). -/
noncomputable def thinPointX : ℝ :=
  500 + 50 * Real.sin ((222 / 5 : ℝ) * Real.pi / 180)

/-- The y window coordinate of the same point. -/
noncomputable def thinPointY : ℝ :=
  500 - 50 * Real.cos ((222 / 5 : ℝ) * Real.pi / 180)

/-- A spinToStop clockwise animation with spins 5 and user stop angle 90 and
everything else unspecified. -/
def animStop90 : AnimationState where
  options := {
    type := AnimType.spinToStop
    direction := AnimDirection.clockwise
    propertyName := none
    propertyValue := none
    duration := 10
    yoyo := none
    repeatCount := none
    easing := none
    stopAngle := some 90
    spins := some 5 }
  stopAngleInternal := none

/-! Supporting lemmas about the boundary-assignment loop. -/

theorem assignAngles_span (d : ℚ) :
    ∀ (l : List Segment) (cur : ℚ) (i : ℕ),
      ((assignAngles d cur l)[i]?).map (fun s => s.endAngle - s.startAngle)
        = (l[i]?).map (segInc d)
  | [], _, _ => by simp [assignAngles]
  | s :: rest, cur, 0 => by simp [assignAngles]
  | s :: rest, cur, i + 1 => by
    simpa [assignAngles] using assignAngles_span d rest (cur + segInc d s) i

theorem assignAngles_adjacent (d : ℚ) :
    ∀ (l : List Segment) (cur : ℚ) (i : ℕ), i + 1 < l.length →
      ((assignAngles d cur l)[i]?).map Segment.endAngle
        = ((assignAngles d cur l)[i + 1]?).map Segment.startAngle
  | [], _, _, h => by simp at h
  | [s], cur, 0, h => by simp at h
  | s :: t :: rest, cur, 0, _ => by simp [assignAngles]
  | s :: rest, cur, i + 1, h => by
    simpa [assignAngles] using
      assignAngles_adjacent d rest (cur + segInc d s) i (by simpa using h)

theorem assignAngles_first (d cur : ℚ) (s : Segment) (rest : List Segment) :
    ((assignAngles d cur (s :: rest))[0]?).map Segment.startAngle = some cur := by
  simp [assignAngles]

theorem assignAngles_last (d : ℚ) :
    ∀ (l : List Segment) (cur : ℚ), l ≠ [] →
      ((assignAngles d cur l).getLast?).map Segment.endAngle = some (cur + incSum d l)
  | [], _, h => absurd rfl h
  | [s], cur, _ => by simp [assignAngles, incSum]
  | s :: t :: rest, cur, _ => by
    have ih := assignAngles_last d (t :: rest) (cur + segInc d s) (by simp)
    simp only [assignAngles] at ih ⊢
    rw [List.getLast?_cons_cons, ih]
    simp only [incSum, List.map_cons, List.sum_cons, Option.some.injEq]
    ring

theorem incSum_eq_arcUsed (d : ℚ) :
    ∀ (l : List Segment), (∀ s ∈ l, s.options.size ≠ some 0) →
      incSum d l = arcUsed l + (numNone l : ℚ) * d
  | [], _ => by simp [incSum, arcUsed, numNone]
  | s :: rest, h => by
    have ih := incSum_eq_arcUsed d rest (fun t ht => h t (List.mem_cons_of_mem s ht))
    have hs := h s (List.mem_cons_self s rest)
    match hsize : s.options.size with
    | none =>
      simp [incSum, arcUsed, numNone, segInc, qTruthy, hsize] at ih ⊢
      rw [ih]
      ring
    | some v =>
      have hv : v ≠ 0 := fun h0 => hs (h0 ▸ hsize)
      simp [incSum, arcUsed, numNone, segInc, qTruthy, hsize, hv] at ih ⊢
      rw [ih]
      ring

theorem numSet_add_numNone :
    ∀ l : List Segment, numSet l + numNone l = l.length
  | [] => by simp [numSet, numNone]
  | s :: rest => by
    have ih := numSet_add_numNone rest
    match hsize : s.options.size with
    | none => simp [numSet, numNone, hsize] at ih ⊢; omega
    | some v => simp [numSet, numNone, hsize] at ih ⊢; omega

/-! Supporting lemmas about rotation normalization. -/

theorem getRotationPosition_eq_fract (a : ℚ) (ha : ∀ m : ℤ, a ≠ 360 * m) :
    getRotationPosition a = 360 * Int.fract (a / 360) := by
  simp only [getRotationPosition]
  split_ifs with h1 h2 h3
  · rw [Int.fract]
    ring
  · have hlt : a < 360 := lt_of_le_of_ne (not_lt.mp h2) (by
      intro hEq
      exact ha 1 (by rw [hEq]; norm_num))
    have hfl : ⌊a / 360⌋ = 0 := by
      rw [Int.floor_eq_zero_iff, Set.mem_Ico]
      constructor
      · positivity
      · rw [div_lt_one (show (0:ℚ) < 360 by norm_num)]
        exact hlt
    rw [Int.fract, hfl]
    push_cast
    ring
  · have hne : a / 360 ≠ ((⌊a / 360⌋ : ℤ) : ℚ) := by
      intro hEq
      refine ha ⌊a / 360⌋ ?_
      rw [div_eq_iff (show (360:ℚ) ≠ 0 by norm_num)] at hEq
      linarith
    have hflt : ((⌊a / 360⌋ : ℤ) : ℚ) < a / 360 :=
      lt_of_le_of_ne (Int.floor_le _) (Ne.symm hne)
    have hceil : ⌈a / 360⌉ = ⌊a / 360⌋ + 1 := by
      refine le_antisymm (Int.ceil_le_floor_add_one _) ?_
      have hlt2 : ((⌊a / 360⌋ : ℤ) : ℚ) < ((⌈a / 360⌉ : ℤ) : ℚ) :=
        lt_of_lt_of_le hflt (Int.le_ceil _)
      exact_mod_cast hlt2
    rw [hceil, Int.fract]
    push_cast
    ring
  · have hgt : -360 < a := lt_of_le_of_ne (not_lt.mp h3) (by
      intro hEq
      exact ha (-1) (by rw [← hEq]; norm_num))
    have ha0 : a < 0 := not_le.mp h1
    have hfl : ⌊a / 360⌋ = -1 := by
      rw [Int.floor_eq_iff]
      constructor
      · push_cast
        rw [le_div_iff (show (0:ℚ) < 360 by norm_num)]
        linarith
      · push_cast
        norm_num
        exact div_neg_of_neg_of_pos ha0 (by norm_num)
    rw [Int.fract, hfl]
    push_cast
    ring

theorem getRotationPosition_range (a : ℚ) :
    0 ≤ getRotationPosition a ∧ getRotationPosition a ≤ 360 := by
  simp only [getRotationPosition]
  split_ifs with h1 h2 h3
  · have heq : a - 360 * ((⌊a / 360⌋ : ℤ) : ℚ) = 360 * Int.fract (a / 360) := by
      rw [Int.fract]
      ring
    rw [heq]
    constructor
    · have := Int.fract_nonneg (a / 360)
      positivity
    · have h01 := Int.fract_lt_one (a / 360)
      have h00 := Int.fract_nonneg (a / 360)
      nlinarith
  · exact ⟨h1, not_lt.mp h2⟩
  · have hc1 : a / 360 ≤ ((⌈a / 360⌉ : ℤ) : ℚ) := Int.le_ceil _
    have hc2 : ((⌈a / 360⌉ : ℤ) : ℚ) < a / 360 + 1 := Int.ceil_lt_add_one _
    have hup : a ≤ 360 * ((⌈a / 360⌉ : ℤ) : ℚ) := by
      have := (div_le_iff (show (0:ℚ) < 360 by norm_num)).mp hc1
      linarith
    have hdown : 360 * ((⌈a / 360⌉ : ℤ) : ℚ) < a + 360 := by
      have hstep : ((⌈a / 360⌉ : ℤ) : ℚ) - 1 < a / 360 := by linarith
      have := (lt_div_iff (show (0:ℚ) < 360 by norm_num)).mp hstep
      linarith
    constructor
    · linarith
    · linarith
  · constructor
    · linarith [not_lt.mp h3]
    · linarith [not_le.mp h1]

theorem getRotationPosition_fix (b : ℚ) (h0 : 0 ≤ b) (h1 : b ≤ 360) :
    getRotationPosition b = b := by
  simp only [getRotationPosition]
  rw [if_pos h0, if_neg (not_lt.mpr h1)]

theorem getRotationPosition_idem (a : ℚ) :
    getRotationPosition (getRotationPosition a) = getRotationPosition a := by
  obtain ⟨h0, h1⟩ := getRotationPosition_range a
  exact getRotationPosition_fix _ h0 h1

theorem getRotationPosition_periodic (a : ℚ) (k : ℤ) (ha : ∀ m : ℤ, a ≠ 360 * m) :
    getRotationPosition (a + 360 * (k : ℚ)) = getRotationPosition a := by
  have ha2 : ∀ m : ℤ, a + 360 * (k : ℚ) ≠ 360 * m := by
    intro m hEq
    refine ha (m - k) ?_
    push_cast
    linarith
  rw [getRotationPosition_eq_fract _ ha2, getRotationPosition_eq_fract a ha]
  have hdiv : (a + 360 * (k : ℚ)) / 360 = a / 360 + (k : ℚ) := by
    field_simp
    ring
  rw [hdiv, Int.fract_add_int]

theorem assignAngles_length (d : ℚ) :
    ∀ (l : List Segment) (cur : ℚ), (assignAngles d cur l).length = l.length
  | [], _ => rfl
  | s :: rest, cur => by
    simp only [assignAngles, List.length_cons]
    rw [assignAngles_length d rest (cur + segInc d s)]

/-- C1 (amended): after updateSegmentSizes runs on a wheel whose segments list
matches its numSegments >= 1, whose explicitly set sizes are all nonzero, and
which either has a segment with no explicit size and explicit sizes summing to
at most 360, or has explicit sizes on every segment summing to exactly 360:
the first startAngle is 0, each endAngle equals the next startAngle, and the
last endAngle is 360, so the boundaries partition 0-360 with no gaps and no
overlaps. -/
theorem updateSegmentSizes_partition (w : Wheel)
    (hlen : w.segments.length = w.numSegments)
    (hn : 1 ≤ w.numSegments)
    (hz : ∀ s ∈ w.segments, s.options.size ≠ some 0)
    (hsome : 0 < numNone w.segments → arcUsed w.segments ≤ 360)
    (hall : numNone w.segments = 0 → arcUsed w.segments = 360) :
    (((updateSegmentSizes w).segments[0]?).map Segment.startAngle = some 0)
    ∧ (∀ i, i + 1 < (updateSegmentSizes w).segments.length →
        ((updateSegmentSizes w).segments[i]?).map Segment.endAngle
          = ((updateSegmentSizes w).segments[i + 1]?).map Segment.startAngle)
    ∧ (((updateSegmentSizes w).segments.getLast?).map Segment.endAngle = some 360) := by
  have htake : w.segments.take w.numSegments = w.segments := by
    rw [← hlen]
    exact List.take_length _
  have hdrop : w.segments.drop w.numSegments = [] := by
    rw [← hlen]
    exact List.drop_length _
  set d := degreesEach w.numSegments w.segments with hd
  have hsegs : (updateSegmentSizes w).segments = assignAngles d 0 w.segments := by
    simp [updateSegmentSizes, htake, hdrop, hd]
  have hne : w.segments ≠ [] := by
    intro hE
    rw [hE] at hlen
    simp at hlen
    omega
  have hsum : incSum d w.segments = 360 := by
    have hnn := numSet_add_numNone w.segments
    rw [incSum_eq_arcUsed d w.segments hz]
    by_cases hk : numNone w.segments = 0
    · have hd0 : d = 0 := by
        rw [hd]
        simp only [degreesEach]
        rw [if_neg (by rw [hall hk]; norm_num)]
      rw [hall hk, hk, hd0]
      norm_num
    · have hkpos : 0 < numNone w.segments := Nat.pos_of_ne_zero hk
      have hle := hsome hkpos
      by_cases hEq : arcUsed w.segments = 360
      · have hd0 : d = 0 := by
          rw [hd]
          simp only [degreesEach]
          rw [if_neg (by rw [hEq]; norm_num)]
        rw [hEq, hd0]
        ring
      · have hlt : arcUsed w.segments < 360 := lt_of_le_of_ne hle hEq
        have hcast : (w.numSegments : ℚ) - (numSet w.segments : ℚ)
            = (numNone w.segments : ℚ) := by
          have hq : (w.segments.length : ℚ)
              = (numSet w.segments : ℚ) + (numNone w.segments : ℚ) := by
            exact_mod_cast hnn.symm
          rw [hlen] at hq
          linarith
        have hdval : d = (360 - arcUsed w.segments) / (numNone w.segments : ℚ) := by
          rw [hd]
          simp only [degreesEach]
          rw [if_pos (by linarith), hcast]
        have hk0 : (numNone w.segments : ℚ) ≠ 0 := Nat.cast_ne_zero.mpr hk
        rw [hdval]
        field_simp
  obtain ⟨s, rest, hcons⟩ : ∃ s rest, w.segments = s :: rest := by
    cases hsl : w.segments with
    | nil => exact absurd hsl hne
    | cons a l => exact ⟨a, l, rfl⟩
  refine ⟨?_, ?_, ?_⟩
  · rw [hsegs, hcons]
    exact assignAngles_first d 0 s rest
  · intro i hi
    rw [hsegs] at hi ⊢
    rw [assignAngles_length d w.segments 0] at hi
    exact assignAngles_adjacent d w.segments 0 i hi
  · rw [hsegs, assignAngles_last d w.segments 0 hne, hsum]
    norm_num

/-- C1 witness: the four-segment wheel with no explicit sizes satisfies the
amended partition property. -/
theorem updateSegmentSizes_partition_witness :
    (((updateSegmentSizes wheelFourBase).segments[0]?).map Segment.startAngle = some 0)
    ∧ (∀ i, i + 1 < (updateSegmentSizes wheelFourBase).segments.length →
        ((updateSegmentSizes wheelFourBase).segments[i]?).map Segment.endAngle
          = ((updateSegmentSizes wheelFourBase).segments[i + 1]?).map Segment.startAngle)
    ∧ (((updateSegmentSizes wheelFourBase).segments.getLast?).map Segment.endAngle = some 360) :=
  updateSegmentSizes_partition wheelFourBase rfl
    (by norm_num [wheelFourBase, defaultWheel])
    (by
      intro s hs
      simp only [wheelFourBase, defaultWheel, segmentOfSize, newSegment,
        defaultSegmentOptions, List.mem_cons, List.not_mem_nil, or_false] at hs
      rcases hs with h | h | h | h <;> rw [h] <;> simp)
    (fun _ => by norm_num [arcUsed, wheelFourBase, defaultWheel, segmentOfSize,
      newSegment, defaultSegmentOptions])
    (by
      intro h
      simp [numNone, wheelFourBase, defaultWheel, segmentOfSize, newSegment,
        defaultSegmentOptions] at h)

/-- C1 as stated fails: a wheel whose only segment has explicit size 100 has
explicit sizes summing to 100 <= 360, yet after updateSegmentSizes the last
endAngle is 100, not 360 (no remainder is distributed because every segment
already has a size). -/
theorem updateSegmentSizes_claim_counterexample :
    arcUsed wheelSingleBase.segments ≤ 360
    ∧ ((updateSegmentSizes wheelSingleBase).segments.getLast?).map Segment.endAngle = some 100
    ∧ (100 : ℚ) ≠ 360 := by
  refine ⟨?_, ?_, by norm_num⟩
  · norm_num [arcUsed, List.filterMap_cons, wheelSingleBase, defaultWheel,
      segmentOfSize, newSegment, defaultSegmentOptions]
  · norm_num [updateSegmentSizes, assignAngles, degreesEach, arcUsed, numSet,
      List.filterMap_cons, segInc, qTruthy, wheelSingleBase, defaultWheel,
      segmentOfSize, newSegment, defaultSegmentOptions]

/-- C7 (amended): when the explicit sizes sum to more than 360 the geometry is
accepted as-is, but the sizeless segments receive 0 degrees each, not a
negative share: arcLeft is negative, so degreesEach keeps its initial value 0,
and every segment advances by its own truthy size or by 0. -/
theorem updateSegmentSizes_overflow (w : Wheel)
    (hlen : w.segments.length = w.numSegments)
    (hover : 360 < arcUsed w.segments) :
    degreesEach w.numSegments (w.segments.take w.numSegments) = 0
    ∧ ∀ i : ℕ, ((updateSegmentSizes w).segments[i]?).map (fun s => s.endAngle - s.startAngle)
        = (w.segments[i]?).map (fun s => if qTruthy s.options.size then s.options.size.getD 0 else 0) := by
  have htake : w.segments.take w.numSegments = w.segments := by
    rw [← hlen]
    exact List.take_length _
  have hdrop : w.segments.drop w.numSegments = [] := by
    rw [← hlen]
    exact List.drop_length _
  have hd0 : degreesEach w.numSegments w.segments = 0 := by
    simp only [degreesEach]
    rw [if_neg (by linarith)]
  refine ⟨by rw [htake]; exact hd0, fun i => ?_⟩
  have hsegs : (updateSegmentSizes w).segments = assignAngles 0 0 w.segments := by
    simp only [updateSegmentSizes, htake, hdrop, hd0, List.append_nil]
  rw [hsegs]
  simpa [segInc] using assignAngles_span 0 w.segments 0 i

/-- C7 witness: the wheel with sizes 200, 200 and one sizeless segment has
degreesEach 0 and spans 200, 200, 0. -/
theorem updateSegmentSizes_overflow_witness :
    degreesEach wheelOversizedBase.numSegments
      (wheelOversizedBase.segments.take wheelOversizedBase.numSegments) = 0
    ∧ ∀ i : ℕ, ((updateSegmentSizes wheelOversizedBase).segments[i]?).map (fun s => s.endAngle - s.startAngle)
        = (wheelOversizedBase.segments[i]?).map
            (fun s => if qTruthy s.options.size then s.options.size.getD 0 else 0) :=
  updateSegmentSizes_overflow wheelOversizedBase rfl
    (by norm_num [arcUsed, List.filterMap_cons, wheelOversizedBase, defaultWheel,
      segmentOfSize, newSegment, defaultSegmentOptions])

/-- C7 as stated fails: with sizes 200, 200 and one sizeless segment the claim
predicts the sizeless segment receives (360 - 400) / 1 = -40 degrees, but the
code gives it a span of 0. -/
theorem updateSegmentSizes_overflow_counterexample :
    ((updateSegmentSizes wheelOversizedBase).segments[2]?).map (fun s => s.endAngle - s.startAngle)
      = some 0
    ∧ (360 - arcUsed wheelOversizedBase.segments) / ((numNone wheelOversizedBase.segments : ℚ))
      = -40
    ∧ (0 : ℚ) ≠ -40 := by
  refine ⟨?_, ?_, by norm_num⟩
  · norm_num [updateSegmentSizes, assignAngles, degreesEach, arcUsed, numSet,
      List.filterMap_cons, segInc, qTruthy, wheelOversizedBase, defaultWheel,
      segmentOfSize, newSegment, defaultSegmentOptions]
  · norm_num [arcUsed, numNone, List.filterMap_cons, wheelOversizedBase,
      defaultWheel, segmentOfSize, newSegment, defaultSegmentOptions]

/-- C3 (amended): getRotationPosition is idempotent and its value always lies
in the closed interval 0..360; it is periodic, normalizing a + 360k to the
same value as a, for every angle a that is not an exact integer multiple of
360; and at the exact multiple 360 it returns 360 itself, which is why the
half-open range claim and unconditional periodicity fail. -/
theorem getRotationPosition_properties :
    (∀ a : ℚ, getRotationPosition (getRotationPosition a) = getRotationPosition a)
    ∧ (∀ a : ℚ, 0 ≤ getRotationPosition a ∧ getRotationPosition a ≤ 360)
    ∧ (∀ (a : ℚ) (k : ℤ), (∀ m : ℤ, a ≠ 360 * m) →
        getRotationPosition (a + 360 * (k : ℚ)) = getRotationPosition a)
    ∧ getRotationPosition 360 = 360 :=
  ⟨getRotationPosition_idem, getRotationPosition_range, getRotationPosition_periodic,
    getRotationPosition_fix 360 (by norm_num) (by norm_num)⟩

/-- C3 witness: periodicity applied at the non-multiple 90 with k = 2. -/
theorem getRotationPosition_properties_witness :
    getRotationPosition (90 + 360 * ((2 : ℤ) : ℚ)) = getRotationPosition 90 :=
  getRotationPosition_properties.2.2.1 90 2 (by
    intro m hEq
    have h4 : (4 : ℚ) * (m : ℚ) = 1 := by linarith
    have h4z : (4 * m : ℤ) = 1 := by exact_mod_cast h4
    omega)

/-- C3 as stated fails: rotating by 0 + 360 * 1 = 360 normalizes to 360, which
differs from the normalization 0 of the angle 0 and does not lie in the
half-open interval 0 <= x < 360. -/
theorem getRotationPosition_claim_counterexample :
    getRotationPosition (0 + 360 * 1) = 360
    ∧ getRotationPosition 0 = 0
    ∧ ¬ getRotationPosition (0 + 360 * 1) < 360 := by
  norm_num [getRotationPosition]

/-- C10: the constructor ignores options.segments entirely: the segment array
it builds is numSegments copies of the default Segment whatever per-segment
options were supplied, because the segment built from the options is
unconditionally overwritten by a default Segment. -/
theorem populateSegments_ignores_options (segOpts : List SegmentOptions) (n : ℕ) :
    populateSegments segOpts n = List.replicate n (newSegment none) := by
  simp only [populateSegments]
  rw [List.map_const', List.length_range]

/-- C8: deleteSegment on a wheel with exactly one segment is a no-op for every
position: it does not throw and returns the wheel unchanged, segments,
numSegments and boundaries included. -/
theorem deleteSegment_single_noop (w : Wheel) (position : Option ℕ)
    (h : w.numSegments = 1) : deleteSegment w position = some w := by
  simp only [deleteSegment, h]
  norm_num

/-- C8 witness: deleting position 5 from the one-segment default wheel changes
nothing. -/
theorem deleteSegment_single_noop_witness :
    deleteSegment defaultWheel (some 5) = some defaultWheel :=
  deleteSegment_single_noop defaultWheel (some 5) rfl

theorem indicatedLoop_eq_zero (rel : ℤ) :
    ∀ (x : ℕ) (l : List Segment), indicatedLoop rel x l = 0
  | _, [] => rfl
  | x, s :: rest => by
    simp only [indicatedLoop, optionsStartAngle, jsGE, Bool.false_and, if_false]
    exact indicatedLoop_eq_zero rel (x + 1) rest

/-- C2: getIndicatedSegmentNumber reads startAngle and endAngle from the
segment options, where they do not exist, so every comparison is against JS
undefined and fails: the function returns 0 for every wheel, and in
particular for the four-equal-segment wheel at rotation 0 and pointer angle
0, where the claim says the segment containing angle 0, segment 1, is
returned. -/
theorem getIndicatedSegmentNumber_bug :
    (∀ w : Wheel, getIndicatedSegmentNumber w = 0)
    ∧ getIndicatedSegmentNumber wheelFourEqual = 0
    ∧ (0 : ℕ) ≠ 1 := by
  refine ⟨fun w => ?_, ?_, by norm_num⟩
  · simp only [getIndicatedSegmentNumber]
    exact indicatedLoop_eq_zero _ 1 w.segments
  · simp only [getIndicatedSegmentNumber]
    exact indicatedLoop_eq_zero _ 1 wheelFourEqual.segments

theorem addSegment_position_throws_general (w : Wheel) (opts : SegmentOptions) (p : ℕ)
    (hlen : w.segments.length = w.numSegments)
    (hp1 : 1 ≤ p) (hpn : p ≤ w.numSegments) :
    addSegment w opts (some p) = none := by
  have hn1 : 1 ≤ w.numSegments := le_trans hp1 hpn
  have hloop : shiftUpLoop p (w.numSegments + 1) w.segments = none := by
    rw [shiftUpLoop]
    rw [if_neg (by omega)]
    have hidx : w.numSegments - 1 < w.segments.length := by omega
    have hget : getSlot w.segments w.numSegments = some (w.segments.get ⟨w.numSegments - 1, hidx⟩) := by
      simp only [getSlot, if_pos hn1]
      exact List.get?_eq_get hidx
    rw [hget]
    have hset : setSlotOptions w.segments (w.numSegments + 1)
        (w.segments.get ⟨w.numSegments - 1, hidx⟩).options = none := by
      simp only [setSlotOptions, getSlot, if_pos (by omega : 1 ≤ w.numSegments + 1)]
      rw [List.get?_eq_none.mpr (by omega)]
    simp only [Option.map_some']
    rw [hset]
  simp only [addSegment]
  rw [hloop]

/-- C5: addSegment with a valid position always throws: on a two-segment
wheel, addSegment(options, 1) reads the options property of the not yet
populated slot numSegments + 1 and dies with a TypeError (modelled as none)
before shifting anything. -/
theorem addSegment_position_throws :
    addSegment wheelTwo defaultSegmentOptions (some 1) = none :=
  addSegment_position_throws_general wheelTwo defaultSegmentOptions 1
    (by
      show (assignAngles _ 0 _ ++ _).length = _
      rw [List.length_append, assignAngles_length]
      rfl)
    (by norm_num) (by show 1 ≤ 2; norm_num)

/-- C6: for a spinToStop animation in the clockwise direction,
computeAnimation sets propertyValue to spins*360 + (360 - stopAngle +
pointerAngle) when a stop angle is given, and to spins*360 plus a whole
number of degrees in 0..359 derived from the random sample when it is not
(spins defaulting to 5 when unset). -/
theorem computeAnimation_spinToStop (pointerAngle rand : ℚ) (st : AnimationState)
    (htype : st.options.type = AnimType.spinToStop)
    (hdir : st.options.direction = AnimDirection.clockwise)
    (hrand : 0 ≤ rand ∧ rand < 1) :
    (∀ s : ℚ, st.options.stopAngle = some s →
      (computeAnimation pointerAngle rand st).options.propertyValue
        = some ((st.options.spins.getD 5) * 360 + (360 - s + pointerAngle)))
    ∧ (st.options.stopAngle = none →
      ∃ r : ℤ, 0 ≤ r ∧ r ≤ 359 ∧
        (computeAnimation pointerAngle rand st).options.propertyValue
          = some ((st.options.spins.getD 5) * 360 + (r : ℚ))) := by
  obtain ⟨o, si⟩ := st
  simp only at htype hdir
  constructor
  · intro s hs
    have hs2 : o.stopAngle = some s := hs
    simp only [computeAnimation, htype, hdir, hs2]
  · intro hnone
    have hnone2 : o.stopAngle = none := hnone
    refine ⟨⌊rand * 359⌋, ?_, ?_, ?_⟩
    · exact Int.floor_nonneg.mpr (by nlinarith [hrand.1])
    · have hlt : rand * 359 < 359 := by nlinarith [hrand.2]
      have h2 : ⌊rand * 359⌋ < (359 : ℤ) := Int.floor_lt.mpr (by exact_mod_cast hlt)
      exact le_of_lt h2
    · simp only [computeAnimation, htype, hdir, hnone2]

/-- C6 witness: spins = 5, stopAngle = 90, pointerAngle = 0, clockwise gives
the tween target 5*360 + (360 - 90 + 0) = 2070. -/
theorem computeAnimation_spinToStop_witness :
    (computeAnimation 0 0 animStop90).options.propertyValue = some 2070 := by
  have h := (computeAnimation_spinToStop 0 0 animStop90 rfl rfl
    (by norm_num)).1 90 rfl
  rw [h]
  norm_num [animStop90]

/-! Supporting lemmas about the text draw-command order. -/

theorem emitFillStroke_kinds (fs ss : Option String) (c : String) (r x y : ℚ)
    (hf : strTruthy fs = true) (hs : strTruthy ss = true) :
    (emitFillStroke fs ss c r x y).map TextCmd.kind
      = [PaintKind.fill, PaintKind.stroke] := by
  simp [emitFillStroke, hf, hs]

theorem emitStrokeFill_kinds (fs ss : Option String) (c : String) (r x y : ℚ)
    (hf : strTruthy fs = true) (hs : strTruthy ss = true) :
    (emitStrokeFill fs ss c r x y).map TextCmd.kind
      = [PaintKind.stroke, PaintKind.fill] := by
  simp [emitStrokeFill, hf, hs]

theorem flatten_kinds_replicate (pat : List PaintKind) :
    ∀ L : List (List TextCmd),
      (∀ u ∈ L, ∃ m, u.map TextCmd.kind = (List.replicate m pat).flatten) →
      ∃ M, (L.flatten).map TextCmd.kind = (List.replicate M pat).flatten
  | [], _ => ⟨0, by simp⟩
  | u :: L, h => by
    obtain ⟨m, hm⟩ := h u (List.mem_cons_self u L)
    obtain ⟨M, hM⟩ :=
      flatten_kinds_replicate pat L (fun v hv => h v (List.mem_cons_of_mem u hv))
    refine ⟨m + M, ?_⟩
    simp only [List.flatten_cons, List.map_append, hm, hM, List.replicate_add,
      List.flatten_append]

theorem lineCmds_kinds (w : Wheel) (st : ResolvedTextStyle) (seg : Segment)
    (lineCount : ℕ) (lineOffset : ℚ) (line : List Char)
    (hf : strTruthy st.fillStyle = true) (hs : strTruthy st.strokeStyle = true) :
    ∃ m, (lineCmds w st seg lineCount lineOffset line).map TextCmd.kind
      = (List.replicate m (kindPat st.orient)).flatten := by
  obtain ⟨ff, fsz, fw, orient, align, dir, mar, fil, str, lw⟩ := st
  simp only at hf hs
  cases dir <;> cases orient
  case reversed.horizontal =>
    exact ⟨1, by simp [lineCmds, kindPat, emitFillStroke, hf, hs]⟩
  case reversed.vertical =>
    cases align <;>
      · refine flatten_kinds_replicate _ _ (fun u hu => ?_)
        obtain ⟨c, _, rfl⟩ := List.mem_map.mp hu
        exact ⟨1, by simp [kindPat, emitFillStroke, hf, hs]⟩
  case reversed.curved =>
    refine flatten_kinds_replicate _ _ (fun u hu => ?_)
    obtain ⟨c, _, rfl⟩ := List.mem_map.mp hu
    exact ⟨1, by simp [kindPat, emitStrokeFill, hf, hs]⟩
  case normal.horizontal =>
    exact ⟨1, by simp [lineCmds, kindPat, emitFillStroke, hf, hs]⟩
  case normal.vertical =>
    cases align <;>
      · refine flatten_kinds_replicate _ _ (fun u hu => ?_)
        obtain ⟨c, _, rfl⟩ := List.mem_map.mp hu
        exact ⟨1, by simp [kindPat, emitFillStroke, hf, hs]⟩
  case normal.curved =>
    refine flatten_kinds_replicate _ _ (fun u hu => ?_)
    obtain ⟨c, _, rfl⟩ := List.mem_map.mp hu
    exact ⟨1, by simp [kindPat, emitStrokeFill, hf, hs]⟩

/-- C9 (amended): in the draw commands drawSegmentText emits for a segment,
whenever both a fill and a stroke color are resolved, every line or character
yields a filled command followed by a stroked command for horizontal and
vertical text in both directions, including outer-aligned horizontal text,
whereas for curved text in both directions the stroked command comes first. -/
theorem drawSegmentText_order (w : Wheel) (seg : Segment)
    (hf : strTruthy (resolveTextStyle w seg.options).fillStyle = true)
    (hs : strTruthy (resolveTextStyle w seg.options).strokeStyle = true) :
    ∃ m, (segmentTextCmds w seg).map TextCmd.kind
      = (List.replicate m (kindPat (resolveTextStyle w seg.options).orient)).flatten := by
  by_cases htext : seg.options.text = ""
  · exact ⟨0, by simp [segmentTextCmds, htext]⟩
  · simp only [segmentTextCmds, if_neg htext]
    refine flatten_kinds_replicate _ _ (fun u hu => ?_)
    obtain ⟨i, _, rfl⟩ := List.mem_map.mp hu
    exact lineCmds_kinds w _ seg _ _ _ hf hs

/-- C9 witness: the outer-aligned horizontal wheel with fill black and stroke
red satisfies the amended ordering on its segment. -/
theorem drawSegmentText_order_witness :
    ∃ m, (segmentTextCmds wheelOuterText segOuterA).map TextCmd.kind
      = (List.replicate m
          (kindPat (resolveTextStyle wheelOuterText segOuterA.options).orient)).flatten :=
  drawSegmentText_order wheelOuterText segOuterA (by decide) (by decide)

/-- C9 as stated fails: for outer-aligned horizontal text in normal direction
with both colors resolved, the emitted order is fill then stroke, not the
stroke-then-fill inversion the claim describes (the source comment asks for
stroke first, but the code fills first; the actual inversion lives in the
curved branches). -/
theorem drawSegmentText_claim_counterexample :
    (drawSegmentText wheelOuterText).map TextCmd.kind
      = [PaintKind.fill, PaintKind.stroke]
    ∧ ([PaintKind.fill, PaintKind.stroke] : List PaintKind)
      ≠ [PaintKind.stroke, PaintKind.fill] := by
  constructor
  · decide
  · decide

/-! Supporting lemmas about the point hit test. -/

theorem wheelThin_segments :
    wheelThin.segments =
      [{ options := { defaultSegmentOptions with size := some (221 / 5) },
         startAngle := 0, endAngle := 221 / 5 },
       { options := { defaultSegmentOptions with size := some (2 / 5) },
         startAngle := 221 / 5, endAngle := 223 / 5 },
       { options := { defaultSegmentOptions with size := some (1577 / 5) },
         startAngle := 223 / 5, endAngle := 360 }] := by
  norm_num [wheelThin, updateSegmentSizes, assignAngles, degreesEach, arcUsed,
    numSet, List.filterMap_cons, segInc, qTruthy, segmentOfSize, newSegment,
    defaultSegmentOptions, defaultWheel]

theorem segmentSearch_wheelThin_ne_two (k : ℤ) (b : Bool) :
    segmentSearch b 1 wheelThin.segments ((k : ℚ)) ≠ some 2 := by
  rw [wheelThin_segments]
  have hno : ¬((221 / 5 : ℚ) ≤ (k : ℚ) ∧ (k : ℚ) ≤ 223 / 5) := by
    rintro ⟨h1, h2⟩
    have ha : (221 : ℚ) ≤ 5 * (k : ℚ) := by linarith
    have hb : 5 * (k : ℚ) ≤ 223 := by linarith
    have ha2 : (221 : ℤ) ≤ 5 * k := by exact_mod_cast ha
    have hb2 : 5 * k ≤ (223 : ℤ) := by exact_mod_cast hb
    omega
  simp only [segmentSearch]
  split_ifs <;> simp_all

theorem getSegmentNumberAt_as_search (w : Wheel) (px py : ℝ)
    (h0 : w.rotationAngle = 0) :
    ∃ (k : ℤ) (b : Bool),
      getSegmentNumberAt w px py = segmentSearch b 1 w.segments ((k : ℚ)) := by
  simp only [getSegmentNumberAt, h0, ne_eq, not_true_eq_false, if_false]
  exact ⟨_, _, rfl⟩

/-- C4 as stated fails: on the wheel whose segment 2 spans [44.2, 44.6], a
range containing no whole number of degrees, the point at the exact mid-angle
44.4 degrees and mid-radius 50 is never resolved to segment 2 at rotation 0,
because every quadrant branch rounds the recovered angle to a whole number of
degrees before the scan. -/
theorem getSegmentNumberAt_claim_counterexample :
    getSegmentNumberAt wheelThin thinPointX thinPointY ≠ some 2 := by
  obtain ⟨k, b, hEq⟩ :=
    getSegmentNumberAt_as_search wheelThin thinPointX thinPointY rfl
  rw [hEq]
  exact segmentSearch_wheelThin_ne_two k b

/-- C4 (amended): the scan of getSegmentNumberAt resolves a point to the first
segment whose startAngle / endAngle range contains the recovered location
angle, provided the radius check holds; since the recovered angle is rounded
to a whole number of degrees (and the canvas coordinates floored), a point at
the exact mid-angle and mid-radius of segment i resolves to i exactly when
the rounded angle falls inside segment i and inside no earlier segment, and a
segment whose range contains no whole degree can never be hit. -/
theorem segmentSearch_first_match (angle : ℚ) :
    ∀ (segs : List Segment) (x i : ℕ) (s : Segment),
      segs[i]? = some s →
      (s.startAngle ≤ angle ∧ angle ≤ s.endAngle) →
      (∀ j t, j < i → segs[j]? = some t →
        ¬(t.startAngle ≤ angle ∧ angle ≤ t.endAngle)) →
      segmentSearch true x segs angle = some (x + i)
  | [], _, i, s, hget, _, _ => by simp at hget
  | s0 :: rest, x, 0, s, hget, hbr, _ => by
    simp only [List.getElem?_cons_zero, Option.some.injEq] at hget
    subst hget
    simp [segmentSearch, if_pos hbr]
  | s0 :: rest, x, i + 1, s, hget, hbr, hearlier => by
    have h0 : ¬(s0.startAngle ≤ angle ∧ angle ≤ s0.endAngle) :=
      hearlier 0 s0 (Nat.succ_pos i) (by simp)
    simp only [segmentSearch, if_neg h0]
    have ih := segmentSearch_first_match angle rest (x + 1) i s
      (by simpa using hget) hbr
      (fun j t hj hjt => hearlier (j + 1) t (by omega) (by simpa using hjt))
    rw [ih]
    congr 1
    omega

theorem wheelFourEqual_segments :
    wheelFourEqual.segments =
      [{ options := defaultSegmentOptions, startAngle := 0, endAngle := 90 },
       { options := defaultSegmentOptions, startAngle := 90, endAngle := 180 },
       { options := defaultSegmentOptions, startAngle := 180, endAngle := 270 },
       { options := defaultSegmentOptions, startAngle := 270, endAngle := 360 }] := by
  norm_num [wheelFourEqual, wheelFourBase, updateSegmentSizes, assignAngles,
    degreesEach, arcUsed, numSet, List.filterMap_cons, segInc, qTruthy,
    segmentOfSize, newSegment, defaultSegmentOptions, defaultWheel]

/-- C4 witness: on the four-equal-segment wheel, the scan with recovered
angle 45 and a passing radius check returns segment 1. -/
theorem segmentSearch_first_match_witness :
    segmentSearch true 1 wheelFourEqual.segments 45 = some 1 := by
  have h := segmentSearch_first_match 45 wheelFourEqual.segments 1 0
    { options := defaultSegmentOptions, startAngle := 0, endAngle := 90 }
    (by rw [wheelFourEqual_segments]; rfl)
    (by norm_num)
    (fun j t hj _ => absurd hj (Nat.not_lt_zero j))
  simpa using h

end Winwheel
